import Mathlib

/-!
Shallow embedding of the netflix-sync-server room and session coordinator
(src/index.js, socket.io based).

Modelling conventions:
* JS object maps (`users`, `pingIntervals`) become association lists keyed
  by socket id; `pingIntervals` only needs the key set (which sockets have
  a live interval timer).
* A socket's room set (`socket.rooms`, a JS insertion-ordered `Set`)
  becomes an ordered `List String` whose head is the socket's private
  id-room (socket.io inserts it at connection time).  `socket.join` appends
  when absent, `socket.leave` erases, exactly like the `Set` operations.
* `io.sockets.adapter.rooms.get(room)` is non-undefined exactly when some
  socket's room list contains `room`; `roomMembers` derives that member
  list (socket.io deletes empty room sets from the adapter).
* Emitted messages (`user-list`, `play`, `pause`, `sync`) become an `Event`
  list returned alongside the new state; an event addressed to a room is
  delivered to every current member of that room, sender included, which is
  what `io.to(room).emit(...)` does.
* `Date.now()` timestamps are naturals; `end - start` is computed in `Int`
  like the JS number subtraction; `ping` is hence an `Int`.
* Each handler is a function from the server state and its payload to the
  new state, the emitted events, and the callback result (when the event
  carries a completion callback).
-/

namespace NetflixSync

/-- One presence record, `users[socket.id]` in the source. -/
structure UserRecord where
  id : String
  name : String
  ping : Int
  currentlyWatching : String
  currentTime : Int
deriving DecidableEq, Repr

/-- A message emitted to a room (delivered to every member of that room). -/
inductive Event where
  | userList (room : String) (payload : List (Option UserRecord))
  | playEv (room : String)
  | pauseEv (room : String)
  | syncEv (room : String) (time : Int)
deriving DecidableEq, Repr

/-- The room an event is addressed to. -/
def Event.roomOf : Event → String
  | .userList r _ => r
  | .playEv r => r
  | .pauseEv r => r
  | .syncEv r _ => r

/-- The whole mutable server state of src/index.js. -/
structure ServerState where
  users : List (String × UserRecord)
  socketRooms : List (String × List String)
  pingIntervals : List String
deriving DecidableEq, Repr

/-- Lookup in an association list (first entry wins, like a JS object key). -/
def lookupEntry {α : Type} : List (String × α) → String → Option α
  | [], _ => none
  | p :: t, k => if p.1 = k then some p.2 else lookupEntry t k

/-- Set a key in an association list, replacing an existing entry. -/
def setEntry {α : Type} : List (String × α) → String → α → List (String × α)
  | [], k, v => [(k, v)]
  | p :: t, k, v => if p.1 = k then (k, v) :: t else p :: setEntry t k v

/-- Delete a key from an association list (JS `delete obj[k]`). -/
def removeEntry {α : Type} (l : List (String × α)) (k : String) : List (String × α) :=
  l.filter (fun p => decide (p.1 ≠ k))

/-- Apply a function to the value stored at a key, if present. -/
def updateEntry {α : Type} : List (String × α) → String → (α → α) → List (String × α)
  | [], _, _ => []
  | p :: t, k, f => (if p.1 = k then (p.1, f p.2) else p) :: updateEntry t k f

/-- Model of `socket.join(room)`: append to the socket's room list when absent. -/
def socketJoin (st : ServerState) (s room : String) : ServerState :=
  { st with socketRooms :=
      updateEntry st.socketRooms s (fun rs => if room ∈ rs then rs else rs ++ [room]) }

/-- Model of `socket.leave(room)`: remove the room from the socket's room list. -/
def socketLeave (st : ServerState) (s room : String) : ServerState :=
  { st with socketRooms := updateEntry st.socketRooms s (fun rs => rs.erase room) }

/-- Source `getCurrentRoom(socket)`: `Array.from(socket.rooms)[1]`, the first
room after the socket's private id-room, or `undefined` (`none`). -/
def getCurrentRoom (st : ServerState) (s : String) : Option String :=
  match lookupEntry st.socketRooms s with
  | some rs => rs[1]?
  | none => none

/-- The member list of a room as the adapter sees it:
`io.sockets.adapter.rooms.get(room)` is defined iff this list is nonempty. -/
def roomMembers (st : ServerState) (room : String) : List String :=
  (st.socketRooms.filter (fun p => decide (room ∈ p.2))).map Prod.fst

/-- Source `emitUserList(room)`: no-op when the adapter has no such room,
else send the member presence records (a missing `users` record is the JS
`undefined`, modelled by `none`) to the room as one `user-list` event. -/
def emitUserList (st : ServerState) (room : String) : List Event :=
  let members := roomMembers st room
  if members = [] then []
  else [Event.userList room (members.map (fun sid => lookupEntry st.users sid))]

/-- Result object passed to the create-room / join-room callbacks. -/
structure RoomResult where
  error : Option String
  roomID : Option String
deriving DecidableEq, Repr

/-- Result object passed to the leave-room and change-username callbacks. -/
structure AckResult where
  error : Option String
deriving DecidableEq, Repr

/-- Model of JS `String.prototype.toUpperCase` on the generated room codes
(per-character basic-latin uppercasing, which is all that the generator's
alphanumeric alphabet exercises). -/
def strUpper (s : String) : String :=
  ⟨s.data.map Char.toUpper⟩

/-- The repeated source pattern: leave the current room, if any, and emit
the vacated room's user list (used by create-room, join-room and
disconnecting). -/
def leaveCurrentRoom (st : ServerState) (s : String) : ServerState × List Event :=
  match getCurrentRoom st s with
  | some r =>
      let st' := socketLeave st s r
      (st', emitUserList st' r)
  | none => (st, [])

/-- The create-room handler.  `uid` is the output of the injected generator
`getUID()`; the handler uppercases it, joins it and reports it. -/
def createRoom (st : ServerState) (s uid : String) :
    ServerState × List Event × RoomResult :=
  let (st1, evs1) := leaveCurrentRoom st s
  let newRoomID := strUpper uid
  let st2 := socketJoin st1 s newRoomID
  (st2, evs1 ++ emitUserList st2 newRoomID, ⟨none, some newRoomID⟩)

/-- The join-room handler: tests `io.sockets.adapter.rooms.get(room)`,
then leaves the current room, joins and reports, or reports the error. -/
def joinRoom (st : ServerState) (s room : String) :
    ServerState × List Event × RoomResult :=
  if roomMembers st room = [] then
    (st, [], ⟨some "Room does not exist", none⟩)
  else
    let (st1, evs1) := leaveCurrentRoom st s
    let st2 := socketJoin st1 s room
    (st2, evs1 ++ emitUserList st2 room, ⟨none, some room⟩)

/-- The leave-room handler. -/
def leaveRoom (st : ServerState) (s : String) :
    ServerState × List Event × AckResult :=
  match getCurrentRoom st s with
  | some r =>
      let st' := socketLeave st s r
      (st', emitUserList st' r, ⟨none⟩)
  | none => (st, [], ⟨some "No room to leave"⟩)

/-- The change-username handler: stores the name verbatim, re-emits the
user list when in a room, and always acknowledges with a null error. -/
def changeUsername (st : ServerState) (s name : String) :
    ServerState × List Event × AckResult :=
  let st' := { st with users := updateEntry st.users s (fun u => { u with name := name }) }
  let evs :=
    match getCurrentRoom st' s with
    | some r => emitUserList st' r
    | none => []
  (st', evs, ⟨none⟩)

/-- The play handler: state unchanged, relays a bare play signal to the
sender's room when there is one. -/
def playH (st : ServerState) (s : String) : ServerState × List Event :=
  match getCurrentRoom st s with
  | some r => (st, [Event.playEv r])
  | none => (st, [])

/-- The pause handler. -/
def pauseH (st : ServerState) (s : String) : ServerState × List Event :=
  match getCurrentRoom st s with
  | some r => (st, [Event.pauseEv r])
  | none => (st, [])

/-- The sync handler: relays the given playback time to the sender's room. -/
def syncH (st : ServerState) (s : String) (time : Int) : ServerState × List Event :=
  match getCurrentRoom st s with
  | some r => (st, [Event.syncEv r time])
  | none => (st, [])

/-- The currentlyWatching handler: when in a room, write the sender's
`currentlyWatching` and `currentTime` presence fields (JS `String(movieId)`
is the identity on the string payload); emits nothing. -/
def currentlyWatchingH (st : ServerState) (s movieId : String) (time : Int) :
    ServerState × List Event :=
  match getCurrentRoom st s with
  | some _ =>
      let users' := updateEntry st.users s
        (fun u => { u with currentlyWatching := movieId, currentTime := time })
      ({ st with users := users' }, [])
  | none => (st, [])

/-- A latency probe in flight: issued for `sid` while it was in `room`,
with the `Date.now()` start timestamp captured by the tick closure. -/
structure Probe where
  sid : String
  room : String
  start : Nat
deriving DecidableEq, Repr

/-- One tick of `pingIntervals[socket.id]`: skip (no probe) when the socket
is not in a room, else capture the current room and start time and send the
probe. -/
def pingTick (st : ServerState) (s : String) (start : Nat) : Option Probe :=
  match getCurrentRoom st s with
  | none => none
  | some r => some ⟨s, r, start⟩

/-- The probe-reply continuation: `users[socket.id].ping = end - start;
emitUserList(currRoom)`.  The JS code dereferences `users[socket.id]`
without an existence check, so a reply for a removed record is a TypeError;
that fault is modelled by `none`. -/
def probeReply (st : ServerState) (p : Probe) (endTime : Nat) :
    Option (ServerState × List Event) :=
  match lookupEntry st.users p.sid with
  | none => none
  | some u =>
      let u' := { u with ping := (endTime : Int) - (p.start : Int) }
      let st' := { st with users := setEntry st.users p.sid u' }
      some (st', emitUserList st' p.room)

/-- The presence record created at connection time. -/
def mkUser (s name : String) : UserRecord :=
  { id := s, name := name, ping := 0, currentlyWatching := "", currentTime := 0 }

/-- The connection handler with the generated name already chosen: create
the presence record, the private id-room and the ping interval. -/
def connect (st : ServerState) (s name : String) : ServerState :=
  { users := setEntry st.users s (mkUser s name)
    socketRooms := setEntry st.socketRooms s [s]
    pingIntervals := if s ∈ st.pingIntervals then st.pingIntervals else st.pingIntervals ++ [s] }

/-- Disconnection: the `disconnecting` handler (leave the current room and
emit its user list) followed by the transport dropping the socket from all
rooms and the `disconnect` handler (delete the presence record, clear and
delete the ping interval). -/
def disconnect (st : ServerState) (s : String) : ServerState × List Event :=
  let (st1, evs) := leaveCurrentRoom st s
  ({ users := removeEntry st1.users s
     socketRooms := removeEntry st1.socketRooms s
     pingIntervals := st1.pingIntervals.filter (fun x => decide (x ≠ s)) }, evs)

/-- `defaultUsernamePrefixes` of the source (14 entries). -/
def firstWords : List String :=
  ["Awesome", "Cool", "Great", "Super", "Interesting", "Funny", "Curious",
   "Fantastic", "Wholesome", "Silly", "Lame", "Smart", "Smartest", "Pretty"]

/-- `defaultUsernameSuffixes` of the source (21 entries). -/
def secondWords : List String :=
  ["Giraffe", "Panda", "Lion", "Tiger", "Bear", "Monkey", "Elephant",
   "Gorilla", "Hippo", "Whale", "Shark", "Dolphin", "Penguin", "Pig",
   "Cow", "Chicken", "Dog", "Cat", "Horse", "Puppy", "Kitten"]

/-- One candidate name from two random draws: `Math.floor(Math.random()*len)`
always lands in range, modelled by reducing the draws mod the list lengths. -/
def mkName (a b : Nat) : String :=
  (firstWords.getD (a % firstWords.length) "") ++ " "
    ++ (secondWords.getD (b % secondWords.length) "")

/-- Source `getRandomUsername()`: the do-while loop drawing candidate names
until one is not already taken.  `rand i` is the pair of random draws of
iteration `i`; the JS loop has no bound, so the model carries fuel and
returns `none` when the loop has not terminated within `fuel` iterations. -/
def getRandomUsername (taken : List String) (rand : Nat → Nat × Nat) :
    Nat → Nat → Option String
  | 0, _ => none
  | fuel + 1, i =>
      let name := mkName (rand i).1 (rand i).2
      if name ∈ taken then getRandomUsername taken rand fuel (i + 1)
      else some name

/-- The names held by the live presence records
(`Object.values(users).map(u => u.name)`). -/
def usernames (st : ServerState) : List String :=
  st.users.map (fun p => p.2.name)

/-- The connection handler with the name generation inlined: `users` does
not yet contain the new socket when `getRandomUsername()` runs. -/
def registerUser (st : ServerState) (s : String) (rand : Nat → Nat × Nat)
    (fuel : Nat) : Option ServerState :=
  (getRandomUsername (usernames st) rand fuel 0).map (fun nm => connect st s nm)

/-- The operations that can change the server state. -/
inductive Op where
  | connectOp (s name : String)
  | disconnectOp (s : String)
  | createOp (s uid : String)
  | joinOp (s room : String)
  | leaveOp (s : String)
  | renameOp (s name : String)
  | watchingOp (s movieId : String) (time : Int)
  | replyOp (p : Probe) (endTime : Nat)

/-- Apply one operation to the state (the probe-reply fault leaves the
state unchanged here; the fault itself is studied separately). -/
def applyOp (st : ServerState) : Op → ServerState
  | .connectOp s name => connect st s name
  | .disconnectOp s => (disconnect st s).1
  | .createOp s uid => (createRoom st s uid).1
  | .joinOp s room => (joinRoom st s room).1
  | .leaveOp s => (leaveRoom st s).1
  | .renameOp s name => (changeUsername st s name).1
  | .watchingOp s movieId time => (currentlyWatchingH st s movieId time).1
  | .replyOp p endTime =>
      match probeReply st p endTime with
      | some (st', _) => st'
      | none => st

/-- The state before any connection. -/
def initState : ServerState := ⟨[], [], []⟩

/-- The states the server can actually be in. -/
inductive Reachable : ServerState → Prop where
  | init : Reachable initState
  | step (st : ServerState) (op : Op) : Reachable st → Reachable (applyOp st op)

/-- Shape of a live socket's room list: the private id-room first, then at
most one joined room distinct from it. -/
def RoomsWF (s : String) (rs : List String) : Prop :=
  rs = [s] ∨ ∃ r, r ≠ s ∧ rs = [s, r]

/-- The structural invariant: socket keys are unique and every room list is
well shaped. -/
def WF (st : ServerState) : Prop :=
  (st.socketRooms.map Prod.fst).Nodup ∧ ∀ p ∈ st.socketRooms, RoomsWF p.1 p.2

/-- How many `user-list` events of `evs` are addressed to `room`. -/
def ulCount (evs : List Event) (room : String) : Nat :=
  (evs.filter (fun e => match e with
    | Event.userList r _ => decide (r = room)
    | _ => false)).length

/-- The state produced by a probe reply that finds the record `u`: the
`ping` field is overwritten with the elapsed time. -/
def writePing (st : ServerState) (p : Probe) (endTime : Nat) (u : UserRecord) :
    ServerState :=
  { st with users :=
      setEntry st.users p.sid { u with ping := (endTime : Int) - (p.start : Int) } }

/-- Concrete states used to instantiate the claim theorems. -/
def exSt0 : ServerState := connect initState "A" "Ann"

def exSt1 : ServerState := (createRoom exSt0 "A" "abc").1

def exSt2 : ServerState := connect exSt1 "B" "Bob"

/-- Concrete run for the latency-prober claims: three connections, two
rooms; A is probed while in ROOMONE and moves to ROOMTWO before the reply
arrives. -/
def probeSt0 : ServerState :=
  connect (connect (connect initState "A" "nA") "B" "nB") "C" "nC"

def probeSt1 : ServerState := (createRoom probeSt0 "B" "roomone").1

def probeSt2 : ServerState := (createRoom probeSt1 "C" "roomtwo").1

def probeSt3 : ServerState := (joinRoom probeSt2 "A" "ROOMONE").1

def probeSt4 : ServerState := (joinRoom probeSt3 "A" "ROOMTWO").1

/-- The state after the sole member of room ABC disconnects. -/
def discSt : ServerState := (disconnect exSt1 "A").1

/-- Every candidate username the generator can produce (14 x 21 names). -/
def allNames : List String :=
  (List.range 14).flatMap (fun a => (List.range 21).map (fun b => mkName a b))

/-- A server state whose live records hold every generatable name (each of
these names is reachable through change-username). -/
def fullSt : ServerState :=
  { users := allNames.map (fun nm => (nm, mkUser nm nm))
    socketRooms := allNames.map (fun nm => (nm, [nm]))
    pingIntervals := allNames }

/-! Association-list lemmas. -/

theorem lookup_setEntry_self {α : Type} (l : List (String × α)) (k : String) (v : α) :
    lookupEntry (setEntry l k v) k = some v := by
  induction l with
  | nil => simp [setEntry, lookupEntry]
  | cons p t ih =>
      by_cases h : p.1 = k
      · simp [setEntry, h, lookupEntry]
      · simp [setEntry, h, lookupEntry, ih]

theorem lookup_setEntry_ne {α : Type} (l : List (String × α)) (k k' : String) (v : α)
    (h : k' ≠ k) : lookupEntry (setEntry l k v) k' = lookupEntry l k' := by
  have hk : ¬(k = k') := fun hh => h hh.symm
  induction l with
  | nil => simp [setEntry, lookupEntry, hk]
  | cons p t ih =>
      by_cases hp : p.1 = k
      · have hp' : ¬(p.1 = k') := by
          rw [hp]
          exact hk
        simp [setEntry, hp, lookupEntry, hk, hp']
      · by_cases hq : p.1 = k'
        · simp [setEntry, hp, lookupEntry, hq, h, hk]
        · simp [setEntry, hp, lookupEntry, hq, ih]

theorem lookup_updateEntry_self {α : Type} (l : List (String × α)) (k : String) (f : α → α) :
    lookupEntry (updateEntry l k f) k = (lookupEntry l k).map f := by
  induction l with
  | nil => simp [updateEntry, lookupEntry]
  | cons p t ih =>
      by_cases h : p.1 = k
      · simp [updateEntry, h, lookupEntry]
      · simp [updateEntry, h, lookupEntry, ih]

theorem lookup_updateEntry_ne {α : Type} (l : List (String × α)) (k k' : String)
    (f : α → α) (h : k' ≠ k) :
    lookupEntry (updateEntry l k f) k' = lookupEntry l k' := by
  have hk : ¬(k = k') := fun hh => h hh.symm
  induction l with
  | nil => simp [updateEntry, lookupEntry]
  | cons p t ih =>
      by_cases hp : p.1 = k
      · have hp' : ¬(p.1 = k') := by
          rw [hp]
          exact hk
        simp [updateEntry, hp, lookupEntry, hk, hp', ih]
      · by_cases hq : p.1 = k'
        · simp [updateEntry, hp, lookupEntry, hq, h, hk]
        · simp [updateEntry, hp, lookupEntry, hq, ih]

theorem lookup_removeEntry_self {α : Type} (l : List (String × α)) (k : String) :
    lookupEntry (removeEntry l k) k = none := by
  induction l with
  | nil => simp [removeEntry, lookupEntry]
  | cons p t ih =>
      by_cases h : p.1 = k
      · simpa [removeEntry, h] using ih
      · simpa [removeEntry, h, lookupEntry] using ih

theorem lookup_removeEntry_ne {α : Type} (l : List (String × α)) (k k' : String)
    (h : k' ≠ k) : lookupEntry (removeEntry l k) k' = lookupEntry l k' := by
  have hk : ¬(k = k') := fun hh => h hh.symm
  induction l with
  | nil => simp [removeEntry, lookupEntry]
  | cons p t ih =>
      by_cases hp : p.1 = k
      · have hp' : ¬(p.1 = k') := by
          rw [hp]
          exact hk
        simpa [removeEntry, List.filter_cons, hp, lookupEntry, hp', hk] using ih
      · by_cases hq : p.1 = k'
        · simp [removeEntry, List.filter_cons, hp, lookupEntry, hq, h, hk]
        · simpa [removeEntry, List.filter_cons, hp, lookupEntry, hq] using ih

theorem mem_setEntry {α : Type} {l : List (String × α)} {k : String} {v : α}
    {q : String × α} (h : q ∈ setEntry l k v) : q = (k, v) ∨ q ∈ l := by
  induction l with
  | nil => simpa [setEntry] using h
  | cons p t ih =>
      by_cases hp : p.1 = k
      · simp only [setEntry, if_pos hp, List.mem_cons] at h
        rcases h with h | h
        · exact Or.inl h
        · exact Or.inr (List.mem_cons_of_mem _ h)
      · simp only [setEntry, if_neg hp, List.mem_cons] at h
        rcases h with h | h
        · exact Or.inr (h ▸ List.mem_cons_self _ _)
        · rcases ih h with h' | h'
          · exact Or.inl h'
          · exact Or.inr (List.mem_cons_of_mem _ h')

theorem mem_updateEntry {α : Type} {l : List (String × α)} {k : String} {f : α → α}
    {q : String × α} (h : q ∈ updateEntry l k f) :
    (q ∈ l ∧ q.1 ≠ k) ∨ ∃ v, (k, v) ∈ l ∧ q = (k, f v) := by
  induction l with
  | nil => simp [updateEntry] at h
  | cons p t ih =>
      by_cases hp : p.1 = k
      · simp only [updateEntry, if_pos hp, List.mem_cons] at h
        rcases h with h | h
        · right
          refine ⟨p.2, ?_, by rw [h, hp]⟩
          rw [← hp]
          exact List.mem_cons_self _ _
        · rcases ih h with ⟨h1, h2⟩ | ⟨v, hv, hq⟩
          · exact Or.inl ⟨List.mem_cons_of_mem _ h1, h2⟩
          · exact Or.inr ⟨v, List.mem_cons_of_mem _ hv, hq⟩
      · simp only [updateEntry, if_neg hp, List.mem_cons] at h
        rcases h with h | h
        · left
          constructor
          · rw [h]
            exact List.mem_cons_self _ _
          · rw [h]
            exact hp
        · rcases ih h with ⟨h1, h2⟩ | ⟨v, hv, hq⟩
          · exact Or.inl ⟨List.mem_cons_of_mem _ h1, h2⟩
          · exact Or.inr ⟨v, List.mem_cons_of_mem _ hv, hq⟩

theorem lookupEntry_mem {α : Type} {l : List (String × α)} {k : String} {v : α}
    (h : lookupEntry l k = some v) : (k, v) ∈ l := by
  induction l with
  | nil => simp [lookupEntry] at h
  | cons p t ih =>
      by_cases hp : p.1 = k
      · simp only [lookupEntry, if_pos hp, Option.some.injEq] at h
        subst hp
        rw [← h]
        exact List.mem_cons_self _ _
      · simp only [lookupEntry, if_neg hp] at h
        exact List.mem_cons_of_mem _ (ih h)

theorem mem_lookupEntry {α : Type} {l : List (String × α)} {k : String} {v : α}
    (hnd : (l.map Prod.fst).Nodup) (h : (k, v) ∈ l) : lookupEntry l k = some v := by
  induction l with
  | nil => simp at h
  | cons p t ih =>
      simp only [List.map_cons, List.nodup_cons, List.mem_map] at hnd
      rcases List.mem_cons.mp h with h | h
      · rw [← h]
        simp [lookupEntry]
      · have hne : p.1 ≠ k := by
          intro hk
          exact hnd.1 ⟨(k, v), h, by rw [hk]⟩
        simp [lookupEntry, hne, ih hnd.2 h]

theorem keys_updateEntry {α : Type} (l : List (String × α)) (k : String) (f : α → α) :
    (updateEntry l k f).map Prod.fst = l.map Prod.fst := by
  induction l with
  | nil => simp [updateEntry]
  | cons p t ih =>
      by_cases hp : p.1 = k
      · simpa [updateEntry, hp] using ih
      · simpa [updateEntry, hp] using ih

theorem keys_setEntry_nodup {α : Type} {l : List (String × α)} (k : String) (v : α)
    (hnd : (l.map Prod.fst).Nodup) : ((setEntry l k v).map Prod.fst).Nodup := by
  induction l with
  | nil => simp [setEntry]
  | cons p t ih =>
      simp only [List.map_cons, List.nodup_cons, List.mem_map] at hnd
      by_cases hp : p.1 = k
      · subst hp
        have hse : setEntry (p :: t) p.1 v = (p.1, v) :: t := by
          simp [setEntry]
        rw [hse]
        simp only [List.map_cons, List.nodup_cons, List.mem_map]
        exact hnd
      · simp only [setEntry, if_neg hp, List.map_cons, List.nodup_cons, List.mem_map]
        constructor
        · intro hcon
          obtain ⟨q, hq, hq1⟩ := hcon
          rcases mem_setEntry hq with h' | h'
          · apply hp
            rw [← hq1, h']
          · exact hnd.1 ⟨q, h', hq1⟩
        · exact ih hnd.2

theorem keys_removeEntry_nodup {α : Type} {l : List (String × α)} (k : String)
    (hnd : (l.map Prod.fst).Nodup) : ((removeEntry l k).map Prod.fst).Nodup :=
  hnd.sublist (List.Sublist.map Prod.fst (List.filter_sublist l))

/-! Invariant layer: shapes of room lists in reachable states. -/

theorem roomsWF_of_lookup {st : ServerState} {s : String} {rs : List String}
    (hwf : WF st) (h : lookupEntry st.socketRooms s = some rs) : RoomsWF s rs :=
  hwf.2 (s, rs) (lookupEntry_mem h)

theorem getCurrentRoom_cases {st : ServerState} {s : String} {rs : List String}
    (hwf : WF st) (h : lookupEntry st.socketRooms s = some rs) :
    (rs = [s] ∧ getCurrentRoom st s = none)
    ∨ ∃ r, r ≠ s ∧ rs = [s, r] ∧ getCurrentRoom st s = some r := by
  rcases roomsWF_of_lookup hwf h with h1 | ⟨r, hr, h2⟩
  · exact Or.inl ⟨h1, by simp [getCurrentRoom, h, h1]⟩
  · exact Or.inr ⟨r, hr, h2, by simp [getCurrentRoom, h, h2]⟩

theorem getCurrentRoom_of_lookup_none {st : ServerState} {s : String}
    (h : lookupEntry st.socketRooms s = none) : getCurrentRoom st s = none := by
  simp [getCurrentRoom, h]

theorem WF_updateEntry_rooms {st : ServerState} {s : String} {f : List String → List String}
    (hwf : WF st)
    (hf : ∀ rs, lookupEntry st.socketRooms s = some rs → RoomsWF s (f rs)) :
    WF { st with socketRooms := updateEntry st.socketRooms s f } := by
  constructor
  · simpa [keys_updateEntry] using hwf.1
  · intro p hp
    simp only at hp
    rcases mem_updateEntry hp with ⟨hmem, _⟩ | ⟨v, hv, hq⟩
    · exact hwf.2 p hmem
    · have hl : lookupEntry st.socketRooms s = some v := mem_lookupEntry hwf.1 hv
      rw [hq]
      exact hf v hl

theorem leaveCurrentRoom_lookup_self {st : ServerState} {s : String} {rs : List String}
    (hwf : WF st) (h : lookupEntry st.socketRooms s = some rs) :
    lookupEntry (leaveCurrentRoom st s).1.socketRooms s = some [s] := by
  rcases getCurrentRoom_cases hwf h with ⟨h1, hc⟩ | ⟨r, hr, h2, hc⟩
  · rw [leaveCurrentRoom, hc]
    rw [h, h1]
  · rw [leaveCurrentRoom, hc]
    have hsr : ¬(s = r) := fun hh => hr hh.symm
    simp [socketLeave, lookup_updateEntry_self, h, h2, List.erase_cons, hsr]

theorem leaveCurrentRoom_lookup_none {st : ServerState} {s : String}
    (h : lookupEntry st.socketRooms s = none) :
    lookupEntry (leaveCurrentRoom st s).1.socketRooms s = none := by
  rw [leaveCurrentRoom, getCurrentRoom_of_lookup_none h]
  exact h

theorem leaveCurrentRoom_lookup_ne {st : ServerState} {s s' : String} (h : s' ≠ s) :
    lookupEntry (leaveCurrentRoom st s).1.socketRooms s'
      = lookupEntry st.socketRooms s' := by
  rw [leaveCurrentRoom]
  cases hc : getCurrentRoom st s with
  | none => rfl
  | some r => exact lookup_updateEntry_ne _ _ _ _ h

theorem leaveCurrentRoom_users {st : ServerState} {s : String} :
    (leaveCurrentRoom st s).1.users = st.users := by
  rw [leaveCurrentRoom]
  cases hc : getCurrentRoom st s with
  | none => rfl
  | some r => rfl

theorem WF_leaveCurrentRoom {st : ServerState} (s : String) (hwf : WF st) :
    WF (leaveCurrentRoom st s).1 := by
  rw [leaveCurrentRoom]
  cases hc : getCurrentRoom st s with
  | none => exact hwf
  | some r =>
      simp only [socketLeave]
      apply WF_updateEntry_rooms hwf
      intro rs hrs
      rcases getCurrentRoom_cases hwf hrs with ⟨h1, hc'⟩ | ⟨r', hr', h2, hc'⟩
      · rw [hc] at hc'
        cases hc'
      · rw [hc] at hc'
        obtain rfl : r = r' := Option.some.inj hc'
        rw [h2]
        have hsr : ¬(s = r) := fun hh => hr' hh.symm
        left
        simp [List.erase_cons, hsr]

theorem WF_socketJoin {st : ServerState} {s : String} (room : String) (hwf : WF st)
    (h : lookupEntry st.socketRooms s = some [s] ∨ lookupEntry st.socketRooms s = none) :
    WF (socketJoin st s room) := by
  rw [socketJoin]
  apply WF_updateEntry_rooms hwf
  intro rs hrs
  rcases h with h | h
  · rw [h] at hrs
    obtain rfl : [s] = rs := Option.some.inj hrs
    by_cases hm : room ∈ [s]
    · have hm' : room = s := by simpa using hm
      left
      simp [hm']
    · have hm' : ¬(room = s) := by simpa using hm
      right
      exact ⟨room, hm', by simp [hm']⟩
  · rw [h] at hrs
    cases hrs

/-! Handler unfolding equations (the let-pattern on a pair blocks plain
definitional unfolding, so we restate each handler's value). -/

theorem createRoom_eq (st : ServerState) (s uid : String) :
    createRoom st s uid =
      (socketJoin (leaveCurrentRoom st s).1 s (strUpper uid),
       (leaveCurrentRoom st s).2
         ++ emitUserList (socketJoin (leaveCurrentRoom st s).1 s (strUpper uid)) (strUpper uid),
       ⟨none, some (strUpper uid)⟩) := by
  rw [createRoom]

theorem joinRoom_eq_found (st : ServerState) (s room : String)
    (h : roomMembers st room ≠ []) :
    joinRoom st s room =
      (socketJoin (leaveCurrentRoom st s).1 s room,
       (leaveCurrentRoom st s).2
         ++ emitUserList (socketJoin (leaveCurrentRoom st s).1 s room) room,
       ⟨none, some room⟩) := by
  rw [joinRoom, if_neg h]

theorem joinRoom_eq_missing (st : ServerState) (s room : String)
    (h : roomMembers st room = []) :
    joinRoom st s room = (st, [], ⟨some "Room does not exist", none⟩) := by
  rw [joinRoom, if_pos h]

theorem leaveRoom_eq_some (st : ServerState) (s r : String)
    (h : getCurrentRoom st s = some r) :
    leaveRoom st s = (socketLeave st s r, emitUserList (socketLeave st s r) r, ⟨none⟩) := by
  rw [leaveRoom, h]

theorem leaveRoom_eq_none (st : ServerState) (s : String)
    (h : getCurrentRoom st s = none) :
    leaveRoom st s = (st, [], ⟨some "No room to leave"⟩) := by
  rw [leaveRoom, h]

theorem leaveRoom_state (st : ServerState) (s : String) :
    (leaveRoom st s).1 = (leaveCurrentRoom st s).1
      ∧ (leaveRoom st s).2.1 = (leaveCurrentRoom st s).2 := by
  cases h : getCurrentRoom st s with
  | none => rw [leaveRoom_eq_none st s h, leaveCurrentRoom, h]; exact ⟨rfl, rfl⟩
  | some r => rw [leaveRoom_eq_some st s r h, leaveCurrentRoom, h]; exact ⟨rfl, rfl⟩

theorem disconnect_eq (st : ServerState) (s : String) :
    disconnect st s =
      ({ users := removeEntry (leaveCurrentRoom st s).1.users s
         socketRooms := removeEntry (leaveCurrentRoom st s).1.socketRooms s
         pingIntervals :=
           (leaveCurrentRoom st s).1.pingIntervals.filter (fun x => decide (x ≠ s)) },
       (leaveCurrentRoom st s).2) := by
  rw [disconnect]

/-! Per-operation preservation of the invariant. -/

theorem WF_init : WF initState := by
  constructor
  · simp [initState]
  · intro p hp
    simp [initState] at hp

theorem WF_connect (st : ServerState) (s name : String) (hwf : WF st) :
    WF (connect st s name) := by
  constructor
  · exact keys_setEntry_nodup s [s] hwf.1
  · intro p hp
    simp only [connect] at hp
    rcases mem_setEntry hp with h | h
    · rw [h]
      left
      rfl
    · exact hwf.2 p h

theorem WF_createRoom (st : ServerState) (s uid : String) (hwf : WF st) :
    WF (createRoom st s uid).1 := by
  rw [createRoom_eq]
  apply WF_socketJoin _ (WF_leaveCurrentRoom s hwf)
  cases h : lookupEntry st.socketRooms s with
  | none => exact Or.inr (leaveCurrentRoom_lookup_none h)
  | some rs => exact Or.inl (leaveCurrentRoom_lookup_self hwf h)

theorem WF_joinRoom (st : ServerState) (s room : String) (hwf : WF st) :
    WF (joinRoom st s room).1 := by
  by_cases hm : roomMembers st room = []
  · rw [joinRoom_eq_missing st s room hm]
    exact hwf
  · rw [joinRoom_eq_found st s room hm]
    apply WF_socketJoin _ (WF_leaveCurrentRoom s hwf)
    cases h : lookupEntry st.socketRooms s with
    | none => exact Or.inr (leaveCurrentRoom_lookup_none h)
    | some rs => exact Or.inl (leaveCurrentRoom_lookup_self hwf h)

theorem WF_leaveRoom (st : ServerState) (s : String) (hwf : WF st) :
    WF (leaveRoom st s).1 := by
  rw [(leaveRoom_state st s).1]
  exact WF_leaveCurrentRoom s hwf

theorem WF_removeRooms (st : ServerState) (s : String) (hwf : WF st) :
    ∀ (us : List (String × UserRecord)) (pi : List String),
      WF { users := us, socketRooms := removeEntry st.socketRooms s,
           pingIntervals := pi } := by
  intro us pi
  constructor
  · exact keys_removeEntry_nodup s hwf.1
  · intro p hp
    simp only [removeEntry] at hp
    exact hwf.2 p (List.mem_of_mem_filter hp)

theorem WF_disconnect (st : ServerState) (s : String) (hwf : WF st) :
    WF (disconnect st s).1 := by
  rw [disconnect_eq]
  exact WF_removeRooms _ s (WF_leaveCurrentRoom s hwf) _ _

theorem changeUsername_socketRooms (st : ServerState) (s name : String) :
    (changeUsername st s name).1.socketRooms = st.socketRooms := rfl

theorem currentlyWatchingH_socketRooms (st : ServerState) (s m : String) (t : Int) :
    (currentlyWatchingH st s m t).1.socketRooms = st.socketRooms := by
  rw [currentlyWatchingH]
  cases getCurrentRoom st s with
  | none => rfl
  | some r => rfl

theorem probeReply_socketRooms {st st' : ServerState} {p : Probe} {endTime : Nat}
    {evs : List Event} (h : probeReply st p endTime = some (st', evs)) :
    st'.socketRooms = st.socketRooms := by
  rw [probeReply] at h
  cases hl : lookupEntry st.users p.sid with
  | none => rw [hl] at h; cases h
  | some u =>
      rw [hl] at h
      simp only [Option.some.injEq, Prod.mk.injEq] at h
      rw [← h.1]

theorem WF_of_same_socketRooms {st st' : ServerState}
    (h : st'.socketRooms = st.socketRooms) (hwf : WF st) : WF st' := by
  constructor
  · rw [h]
    exact hwf.1
  · intro p hp
    rw [h] at hp
    exact hwf.2 p hp

theorem WF_applyOp (st : ServerState) (op : Op) (hwf : WF st) : WF (applyOp st op) := by
  cases op with
  | connectOp s name => exact WF_connect st s name hwf
  | disconnectOp s => exact WF_disconnect st s hwf
  | createOp s uid => exact WF_createRoom st s uid hwf
  | joinOp s room => exact WF_joinRoom st s room hwf
  | leaveOp s => exact WF_leaveRoom st s hwf
  | renameOp s name => exact WF_of_same_socketRooms (changeUsername_socketRooms st s name) hwf
  | watchingOp s m t => exact WF_of_same_socketRooms (currentlyWatchingH_socketRooms st s m t) hwf
  | replyOp p endTime =>
      rw [applyOp]
      cases h : probeReply st p endTime with
      | none => exact hwf
      | some q =>
          cases q with
          | mk st' evs => exact WF_of_same_socketRooms (probeReply_socketRooms h) hwf

theorem reachable_WF : ∀ st, Reachable st → WF st := by
  intro st h
  induction h with
  | init => exact WF_init
  | step st' op _ ih => exact WF_applyOp st' op ih

/-! Broadcast counting. -/

theorem ulCount_append (a b : List Event) (room : String) :
    ulCount (a ++ b) room = ulCount a room + ulCount b room := by
  simp [ulCount, List.filter_append]

theorem ulCount_nil (room : String) : ulCount [] room = 0 := rfl

theorem ulCount_emitUserList_self (st : ServerState) (room : String) :
    ulCount (emitUserList st room) room
      = if roomMembers st room = [] then 0 else 1 := by
  by_cases h : roomMembers st room = []
  · simp [emitUserList, h, ulCount]
  · simp [emitUserList, h, ulCount]

theorem ulCount_emitUserList_ne (st : ServerState) (room r : String) (h : r ≠ room) :
    ulCount (emitUserList st room) r = 0 := by
  by_cases hm : roomMembers st room = []
  · simp [emitUserList, hm, ulCount]
  · have : ¬(room = r) := fun hh => h hh.symm
    simp [emitUserList, hm, ulCount, this]

theorem mem_roomMembers {st : ServerState} {s room : String} {rs : List String}
    (hl : lookupEntry st.socketRooms s = some rs) (hr : room ∈ rs) :
    s ∈ roomMembers st room := by
  have hmem : (s, rs) ∈ st.socketRooms := lookupEntry_mem hl
  simp only [roomMembers, List.mem_map]
  refine ⟨(s, rs), ?_, rfl⟩
  rw [List.mem_filter]
  exact ⟨hmem, by simpa using hr⟩

theorem roomMembers_of_lookup_ne_nil {st : ServerState} {s room : String}
    {rs : List String} (hl : lookupEntry st.socketRooms s = some rs) (hr : room ∈ rs) :
    roomMembers st room ≠ [] := by
  intro hc
  have hmm := mem_roomMembers hl hr
  rw [hc] at hmm
  exact List.not_mem_nil s hmm

theorem socketJoin_lookup_single {st : ServerState} {s : String} (code : String)
    (hl : lookupEntry st.socketRooms s = some [s]) (hcs : code ≠ s) :
    lookupEntry (socketJoin st s code).socketRooms s = some [s, code] := by
  simp only [socketJoin, lookup_updateEntry_self, hl, Option.map_some']
  simp [hcs]

theorem getCurrentRoom_of_pair {st : ServerState} {s r : String}
    (hl : lookupEntry st.socketRooms s = some [s, r]) :
    getCurrentRoom st s = some r := by
  simp [getCurrentRoom, hl]

theorem getCurrentRoom_of_single {st : ServerState} {s : String}
    (hl : lookupEntry st.socketRooms s = some [s]) :
    getCurrentRoom st s = none := by
  simp [getCurrentRoom, hl]

theorem leaveCurrentRoom_events_none {st : ServerState} {s : String}
    (h : getCurrentRoom st s = none) : (leaveCurrentRoom st s).2 = [] := by
  rw [leaveCurrentRoom, h]

theorem leaveCurrentRoom_events_some {st : ServerState} {s r : String}
    (h : getCurrentRoom st s = some r) :
    (leaveCurrentRoom st s).2 = emitUserList (socketLeave st s r) r := by
  rw [leaveCurrentRoom, h]

/-- Shared postcondition of the leave-then-join flow inside create-room and
join-room: the socket ends exactly in its private room plus the joined code,
the joined room gets exactly one user-list broadcast, and the departed room
(when there was one) gets exactly one when still inhabited. -/
theorem joinFlow_post (st : ServerState) (s code : String) (rs : List String)
    (hwf : WF st) (hl : lookupEntry st.socketRooms s = some rs) (hcs : code ≠ s)
    (hcur : getCurrentRoom st s ≠ some code) :
    lookupEntry (socketJoin (leaveCurrentRoom st s).1 s code).socketRooms s
        = some [s, code]
    ∧ getCurrentRoom (socketJoin (leaveCurrentRoom st s).1 s code) s = some code
    ∧ ulCount ((leaveCurrentRoom st s).2
        ++ emitUserList (socketJoin (leaveCurrentRoom st s).1 s code) code) code = 1
    ∧ (∀ old, getCurrentRoom st s = some old →
        old ≠ code ∧ old ≠ s
        ∧ ulCount ((leaveCurrentRoom st s).2
            ++ emitUserList (socketJoin (leaveCurrentRoom st s).1 s code) code) old
          = (if roomMembers (socketLeave st s old) old = [] then 0 else 1)) := by
  have hl1 : lookupEntry (leaveCurrentRoom st s).1.socketRooms s = some [s] :=
    leaveCurrentRoom_lookup_self hwf hl
  have hl2 : lookupEntry (socketJoin (leaveCurrentRoom st s).1 s code).socketRooms s
      = some [s, code] := socketJoin_lookup_single code hl1 hcs
  have hcur2 : getCurrentRoom (socketJoin (leaveCurrentRoom st s).1 s code) s
      = some code := getCurrentRoom_of_pair hl2
  have hmem2 : roomMembers (socketJoin (leaveCurrentRoom st s).1 s code) code ≠ [] :=
    roomMembers_of_lookup_ne_nil hl2 (by simp)
  refine ⟨hl2, hcur2, ?_, ?_⟩
  · rw [ulCount_append]
    cases hc : getCurrentRoom st s with
    | none =>
        rw [leaveCurrentRoom_events_none hc, ulCount_nil,
          ulCount_emitUserList_self]
        simp [hmem2]
    | some old =>
        have hoc : code ≠ old := by
          intro hh
          rw [← hh] at hc
          exact hcur hc
        rw [leaveCurrentRoom_events_some hc,
          ulCount_emitUserList_ne _ _ _ hoc, ulCount_emitUserList_self]
        simp [hmem2]
  · intro old hc
    have hoc : old ≠ code := by
      intro hh
      exact hcur (by rw [← hh]; exact hc)
    have hos : old ≠ s := by
      rcases getCurrentRoom_cases hwf hl with ⟨_, hn⟩ | ⟨r, hr, _, hsome⟩
      · rw [hn] at hc
        cases hc
      · rw [hsome] at hc
        obtain rfl : r = old := Option.some.inj hc
        exact hr
    refine ⟨hoc, hos, ?_⟩
    rw [ulCount_append, leaveCurrentRoom_events_some hc,
      ulCount_emitUserList_self, ulCount_emitUserList_ne _ _ _ hoc]
    omega

/-! Decidability of the invariant, so concrete states can be checked. -/

theorem roomsWF_iff (s : String) (rs : List String) :
    RoomsWF s rs
      ↔ (rs = [s] ∨ (rs.length = 2 ∧ rs.head? = some s ∧ rs[1]? ≠ some s)) := by
  constructor
  · intro h
    rcases h with h | ⟨r, hr, h⟩
    · exact Or.inl h
    · right
      rw [h]
      refine ⟨rfl, rfl, ?_⟩
      simp [hr]
  · intro h
    rcases h with h | ⟨hlen, hhead, hsnd⟩
    · exact Or.inl h
    · match rs, hlen with
      | [a, b], _ =>
          right
          refine ⟨b, ?_, ?_⟩
          · intro hb
            apply hsnd
            simp [hb]
          · have ha : a = s := by
              simpa using hhead
            rw [ha]

instance (s : String) (rs : List String) : Decidable (RoomsWF s rs) :=
  decidable_of_iff' _ (roomsWF_iff s rs)

instance (st : ServerState) : Decidable (WF st) := by
  unfold WF
  infer_instance

theorem head_mem_of_roomsWF {s : String} {rs : List String} (h : RoomsWF s rs) :
    s ∈ rs := by
  rcases h with h | ⟨r, _, h⟩
  · rw [h]
    exact List.mem_singleton_self s
  · rw [h]
    exact List.mem_cons_self _ _

/-- C10: every live connection is a member of its private id-room, so the
join-room existence test accepts another live connection's id as a code:
for distinct live connections the join succeeds and reports that id. -/
theorem c10_private_room_joinable :
    ∀ (st : ServerState) (a b : String) (rsa rsb : List String),
      WF st → lookupEntry st.socketRooms a = some rsa →
      lookupEntry st.socketRooms b = some rsb → a ≠ b →
      (joinRoom st a b).2.2 = ⟨none, some b⟩ := by
  intro st a b rsa rsb hwf hla hlb hab
  have hbmem : b ∈ rsb := head_mem_of_roomsWF (roomsWF_of_lookup hwf hlb)
  have hne : roomMembers st b ≠ [] := roomMembers_of_lookup_ne_nil hlb hbmem
  rw [joinRoom_eq_found st a b hne]

/-- Witness for C10 at a concrete two-connection state. -/
theorem c10_witness :
    WF exSt2 ∧ "B" ≠ "A" ∧ (joinRoom exSt2 "B" "A").2.2 = ⟨none, some "A"⟩ :=
  ⟨by decide, by decide,
    c10_private_room_joinable exSt2 "B" "A" ["B"] ["A", "ABC"]
      (by decide) (by decide) (by decide) (by decide)⟩

/-- C6: for a connection in a room, play and pause relay a bare signal and
sync relays exactly the given time, all addressed to the sender's room (the
sender is itself among that room's members, so it receives the signal too);
for a connection in no room the three handlers change nothing, emit nothing
and signal no error. -/
theorem c6_playback_relay :
    ∀ (st : ServerState) (s r : String) (rs : List String) (t : Int),
      WF st → lookupEntry st.socketRooms s = some rs →
      ((getCurrentRoom st s = some r →
        playH st s = (st, [Event.playEv r])
        ∧ pauseH st s = (st, [Event.pauseEv r])
        ∧ syncH st s t = (st, [Event.syncEv r t])
        ∧ Event.roomOf (Event.syncEv r t) = r
        ∧ s ∈ roomMembers st r)
      ∧ (getCurrentRoom st s = none →
        playH st s = (st, [])
        ∧ pauseH st s = (st, [])
        ∧ syncH st s t = (st, []))) := by
  intro st s r rs t hwf hl
  constructor
  · intro h
    refine ⟨by rw [playH, h], by rw [pauseH, h], by rw [syncH, h], rfl, ?_⟩
    rcases getCurrentRoom_cases hwf hl with ⟨_, hn⟩ | ⟨r', _, hpair, hsome⟩
    · rw [hn] at h
      cases h
    · rw [hsome] at h
      obtain rfl : r' = r := Option.some.inj h
      exact mem_roomMembers hl (by rw [hpair]; simp)
  · intro h
    exact ⟨by rw [playH, h], by rw [pauseH, h], by rw [syncH, h]⟩

/-- Witness for C6 at a concrete state with one connection in a room. -/
theorem c6_witness :
    WF exSt1
    ∧ (getCurrentRoom exSt1 "A" = some "ABC" →
        playH exSt1 "A" = (exSt1, [Event.playEv "ABC"])
        ∧ pauseH exSt1 "A" = (exSt1, [Event.pauseEv "ABC"])
        ∧ syncH exSt1 "A" 42 = (exSt1, [Event.syncEv "ABC" 42])
        ∧ Event.roomOf (Event.syncEv "ABC" 42) = "ABC"
        ∧ "A" ∈ roomMembers exSt1 "ABC") :=
  ⟨by decide,
    (c6_playback_relay exSt1 "A" "ABC" ["A", "ABC"] 42 (by decide) (by decide)).1⟩

/-- C7: the currentlyWatching event, for a sender in a room, rewrites only
the sender's own `currentlyWatching` and `currentTime` presence fields,
leaves every other record, all room memberships and the ping intervals
unchanged, and emits no broadcast; for a sender in no room it is a complete
no-op. -/
theorem c7_watching_frame :
    ∀ (st : ServerState) (s m : String) (t : Int) (u : UserRecord),
      lookupEntry st.users s = some u →
      ((getCurrentRoom st s = none → currentlyWatchingH st s m t = (st, []))
      ∧ (∀ r, getCurrentRoom st s = some r →
          (currentlyWatchingH st s m t).2 = []
          ∧ lookupEntry (currentlyWatchingH st s m t).1.users s
              = some { u with currentlyWatching := m, currentTime := t }
          ∧ (∀ s', s' ≠ s →
              lookupEntry (currentlyWatchingH st s m t).1.users s'
                = lookupEntry st.users s')
          ∧ (currentlyWatchingH st s m t).1.socketRooms = st.socketRooms
          ∧ (currentlyWatchingH st s m t).1.pingIntervals = st.pingIntervals)) := by
  intro st s m t u hu
  constructor
  · intro h
    rw [currentlyWatchingH, h]
  · intro r h
    rw [currentlyWatchingH, h]
    refine ⟨rfl, ?_, ?_, rfl, rfl⟩
    · simp only [lookup_updateEntry_self, hu, Option.map_some']
    · intro s' hs'
      exact lookup_updateEntry_ne _ _ _ _ hs'

/-- Witness for C7 at a concrete state with one connection in a room. -/
theorem c7_witness :
    lookupEntry exSt1.users "A" = some (mkUser "A" "Ann")
    ∧ (getCurrentRoom exSt1 "A" = some "ABC" →
        (currentlyWatchingH exSt1 "A" "movie7" 99).2 = []
        ∧ lookupEntry (currentlyWatchingH exSt1 "A" "movie7" 99).1.users "A"
            = some { mkUser "A" "Ann" with currentlyWatching := "movie7", currentTime := 99 }
        ∧ (∀ s', s' ≠ "A" →
            lookupEntry (currentlyWatchingH exSt1 "A" "movie7" 99).1.users s'
              = lookupEntry exSt1.users s')
        ∧ (currentlyWatchingH exSt1 "A" "movie7" 99).1.socketRooms = exSt1.socketRooms
        ∧ (currentlyWatchingH exSt1 "A" "movie7" 99).1.pingIntervals = exSt1.pingIntervals) :=
  ⟨by decide,
    (c7_watching_frame exSt1 "A" "movie7" 99 (mkUser "A" "Ann") (by decide)).2 "ABC"⟩

/-- C4: join-room reports the room-does-not-exist error exactly when no
connection is associated with the requested code, and in that case changes
nothing; otherwise it leaves the caller's current room if any, broadcasting
a user list to that departed room (exactly one when it stays inhabited,
none once empty), associates the caller with the code, broadcasts a user
list for the joined room and reports success with the code. -/
theorem c4_join_room_contract :
    ∀ (st : ServerState) (s room : String) (rs : List String),
      WF st → lookupEntry st.socketRooms s = some rs →
      (((joinRoom st s room).2.2 = ⟨some "Room does not exist", none⟩)
        ↔ roomMembers st room = [])
      ∧ (roomMembers st room = [] →
          (joinRoom st s room).1 = st ∧ (joinRoom st s room).2.1 = [])
      ∧ (roomMembers st room ≠ [] →
          (joinRoom st s room).2.2 = ⟨none, some room⟩
          ∧ (∃ rs', lookupEntry (joinRoom st s room).1.socketRooms s = some rs'
              ∧ room ∈ rs' ∧ ∀ r ∈ rs', r = s ∨ r = room)
          ∧ ulCount (joinRoom st s room).2.1 room ≥ 1
          ∧ (∀ old, getCurrentRoom st s = some old →
              (roomMembers (socketLeave st s old) old ≠ [] →
                ulCount (joinRoom st s room).2.1 old ≥ 1)
              ∧ (old ≠ room →
                ulCount (joinRoom st s room).2.1 old
                  = (if roomMembers (socketLeave st s old) old = [] then 0 else 1)))) := by
  intro st s room rs hwf hl
  by_cases hm : roomMembers st room = []
  · rw [joinRoom_eq_missing st s room hm]
    refine ⟨by simp [hm], fun _ => ⟨rfl, rfl⟩, fun hc => absurd hm hc⟩
  · rw [joinRoom_eq_found st s room hm]
    have hl1 : lookupEntry (leaveCurrentRoom st s).1.socketRooms s = some [s] :=
      leaveCurrentRoom_lookup_self hwf hl
    have hrs' : lookupEntry (socketJoin (leaveCurrentRoom st s).1 s room).socketRooms s
        = some (if room ∈ [s] then [s] else [s] ++ [room]) := by
      simp only [socketJoin, lookup_updateEntry_self, hl1, Option.map_some']
    refine ⟨?_, ?_, fun _ => ⟨rfl, ?_, ?_, ?_⟩⟩
    · constructor
      · intro h
        cases h
      · intro h
        exact absurd h hm
    · intro h
      exact absurd h hm
    · by_cases hrm : room ∈ [s]
      · have hreq : room = s := by simpa using hrm
        refine ⟨[s], by rw [hrs', if_pos hrm], ?_, ?_⟩
        · rw [hreq]
          exact List.mem_singleton_self s
        · intro r hr
          left
          simpa using hr
      · refine ⟨[s, room], by rw [hrs', if_neg hrm]; rfl, by simp, ?_⟩
        intro r hr
        rcases List.mem_cons.mp hr with h | h
        · exact Or.inl h
        · right
          simpa using h
    · rw [ulCount_append]
      have hmem2 : roomMembers (socketJoin (leaveCurrentRoom st s).1 s room) room ≠ [] := by
        by_cases hrm : room ∈ [s]
        · exact roomMembers_of_lookup_ne_nil (by rw [hrs', if_pos hrm])
            (by have hreq : room = s := by simpa using hrm
                rw [hreq]; exact List.mem_singleton_self s)
        · exact roomMembers_of_lookup_ne_nil (by rw [hrs', if_neg hrm]) (by simp)
      rw [ulCount_emitUserList_self]
      simp [hmem2]
    · intro old hc
      rw [ulCount_append, leaveCurrentRoom_events_some hc, ulCount_emitUserList_self]
      constructor
      · intro hne
        rw [if_neg hne]
        omega
      · intro hor
        rw [ulCount_emitUserList_ne _ _ _ hor, Nat.add_zero]

/-- Witness for C4: connection A, currently in the inhabited room ROOMONE,
joins ROOMTWO — the success result, the new association, the broadcast to
the joined room and the single broadcast to the departed room are all
realised. -/
theorem c4_witness :
    WF probeSt3
    ∧ (roomMembers probeSt3 "ROOMTWO" ≠ [] →
        (joinRoom probeSt3 "A" "ROOMTWO").2.2 = ⟨none, some "ROOMTWO"⟩
        ∧ (∃ rs', lookupEntry (joinRoom probeSt3 "A" "ROOMTWO").1.socketRooms "A" = some rs'
            ∧ "ROOMTWO" ∈ rs' ∧ ∀ r ∈ rs', r = "A" ∨ r = "ROOMTWO")
        ∧ ulCount (joinRoom probeSt3 "A" "ROOMTWO").2.1 "ROOMTWO" ≥ 1
        ∧ (∀ old, getCurrentRoom probeSt3 "A" = some old →
            (roomMembers (socketLeave probeSt3 "A" old) old ≠ [] →
              ulCount (joinRoom probeSt3 "A" "ROOMTWO").2.1 old ≥ 1)
            ∧ (old ≠ "ROOMTWO" →
              ulCount (joinRoom probeSt3 "A" "ROOMTWO").2.1 old
                = (if roomMembers (socketLeave probeSt3 "A" old) old = [] then 0 else 1)))) :=
  ⟨by decide,
    (c4_join_room_contract probeSt3 "A" "ROOMTWO" ["A", "ROOMONE"]
      (by decide) (by decide)).2.2⟩

/-- C1: in every reachable state a live connection's room list is its
private id-room plus at most one room code; create-room and join-room leave
the prior room (the old room is gone from the connection's final room
list); and each membership change (create, join, leave, disconnect) is
followed by exactly one user-list broadcast per affected room — one for the
newly joined room, and one for the departed room exactly when it is still
inhabited after the departure. -/
theorem c1_room_exclusivity :
    (∀ (st : ServerState) (s : String) (rs : List String),
      Reachable st → lookupEntry st.socketRooms s = some rs → RoomsWF s rs)
    ∧ (∀ (st : ServerState) (s uid : String) (rs : List String),
        WF st → lookupEntry st.socketRooms s = some rs →
        strUpper uid ≠ s → getCurrentRoom st s ≠ some (strUpper uid) →
        getCurrentRoom (createRoom st s uid).1 s = some (strUpper uid)
        ∧ ulCount (createRoom st s uid).2.1 (strUpper uid) = 1
        ∧ (∀ old, getCurrentRoom st s = some old →
            old ∉ ((lookupEntry (createRoom st s uid).1.socketRooms s).getD [])
            ∧ ulCount (createRoom st s uid).2.1 old
              = (if roomMembers (socketLeave st s old) old = [] then 0 else 1)))
    ∧ (∀ (st : ServerState) (s room : String) (rs : List String),
        WF st → lookupEntry st.socketRooms s = some rs →
        room ≠ s → getCurrentRoom st s ≠ some room → roomMembers st room ≠ [] →
        getCurrentRoom (joinRoom st s room).1 s = some room
        ∧ ulCount (joinRoom st s room).2.1 room = 1
        ∧ (∀ old, getCurrentRoom st s = some old →
            old ∉ ((lookupEntry (joinRoom st s room).1.socketRooms s).getD [])
            ∧ ulCount (joinRoom st s room).2.1 old
              = (if roomMembers (socketLeave st s old) old = [] then 0 else 1)))
    ∧ (∀ (st : ServerState) (s old : String) (rs : List String),
        WF st → lookupEntry st.socketRooms s = some rs →
        getCurrentRoom st s = some old →
        getCurrentRoom (leaveRoom st s).1 s = none
        ∧ ulCount (leaveRoom st s).2.1 old
          = (if roomMembers (socketLeave st s old) old = [] then 0 else 1))
    ∧ (∀ (st : ServerState) (s old : String),
        getCurrentRoom st s = some old →
        lookupEntry (disconnect st s).1.socketRooms s = none
        ∧ ulCount (disconnect st s).2 old
          = (if roomMembers (socketLeave st s old) old = [] then 0 else 1)) := by
  refine ⟨?_, ?_, ?_, ?_, ?_⟩
  · intro st s rs hr hl
    exact roomsWF_of_lookup (reachable_WF st hr) hl
  · intro st s uid rs hwf hl hne hcur
    have hpost := joinFlow_post st s (strUpper uid) rs hwf hl hne hcur
    rw [createRoom_eq]
    refine ⟨hpost.2.1, hpost.2.2.1, ?_⟩
    intro old hc
    obtain ⟨hoc, hos, hcount⟩ := hpost.2.2.2 old hc
    refine ⟨?_, hcount⟩
    rw [hpost.1]
    simp [hos, hoc]
  · intro st s room rs hwf hl hne hcur hmem
    have hpost := joinFlow_post st s room rs hwf hl hne hcur
    rw [joinRoom_eq_found st s room hmem]
    refine ⟨hpost.2.1, hpost.2.2.1, ?_⟩
    intro old hc
    obtain ⟨hoc, hos, hcount⟩ := hpost.2.2.2 old hc
    refine ⟨?_, hcount⟩
    rw [hpost.1]
    simp [hos, hoc]
  · intro st s old rs hwf hl hc
    constructor
    · rw [(leaveRoom_state st s).1]
      exact getCurrentRoom_of_single (leaveCurrentRoom_lookup_self hwf hl)
    · rw [(leaveRoom_state st s).2, leaveCurrentRoom_events_some hc,
        ulCount_emitUserList_self]
  · intro st s old hc
    constructor
    · rw [disconnect_eq]
      exact lookup_removeEntry_self _ _
    · rw [disconnect_eq]
      rw [leaveCurrentRoom_events_some hc, ulCount_emitUserList_self]

/-- Witness for C1: the invariant at a concrete reachable two-step state,
and the create-room part at a concrete two-connection state. -/
theorem c1_witness :
    RoomsWF "A" ["A", "ABC"]
    ∧ (getCurrentRoom (createRoom exSt2 "B" "xy").1 "B" = some (strUpper "xy")
        ∧ ulCount (createRoom exSt2 "B" "xy").2.1 (strUpper "xy") = 1
        ∧ (∀ old, getCurrentRoom exSt2 "B" = some old →
            old ∉ ((lookupEntry (createRoom exSt2 "B" "xy").1.socketRooms "B").getD [])
            ∧ ulCount (createRoom exSt2 "B" "xy").2.1 old
              = (if roomMembers (socketLeave exSt2 "B" old) old = [] then 0 else 1))) := by
  have hre : Reachable exSt1 :=
    Reachable.step exSt0 (Op.createOp "A" "abc")
      (Reachable.step initState (Op.connectOp "A" "Ann") Reachable.init)
  exact ⟨c1_room_exclusivity.1 exSt1 "A" ["A", "ABC"] hre (by decide),
    c1_room_exclusivity.2.1 exSt2 "B" "xy" ["B"] (by decide) (by decide)
      (by decide) (by decide)⟩

/-- Counterexample to C5 as stated: a connection can join its own private
id-room (the join succeeds, reporting the connection's own id as the room),
yet afterwards its current room is still none, so the promised single
successful leave fails immediately. -/
theorem c5_counterexample :
    (joinRoom exSt0 "A" "A").2.2.error = none
    ∧ (leaveRoom (joinRoom exSt0 "A" "A").1 "A").2.2.error
        = some "No room to leave" := by
  decide

/-- C5 amended: the no-room-to-leave error occurs exactly when the
connection has no current room, with nothing changed on that error; a
successful leave disassociates and broadcasts to the vacated room exactly
when it remains inhabited; and after any successful create, or any
successful join of a room other than the caller's own private id-room,
leave-room succeeds exactly once. -/
theorem c5_leave_room_amended :
    ∀ (st : ServerState) (s : String) (rs : List String),
      WF st → lookupEntry st.socketRooms s = some rs →
      (((leaveRoom st s).2.2.error = some "No room to leave")
        ↔ getCurrentRoom st s = none)
      ∧ (getCurrentRoom st s = none →
          (leaveRoom st s).1 = st ∧ (leaveRoom st s).2.1 = [])
      ∧ (∀ old, getCurrentRoom st s = some old →
          (leaveRoom st s).2.2.error = none
          ∧ getCurrentRoom (leaveRoom st s).1 s = none
          ∧ old ∉ ((lookupEntry (leaveRoom st s).1.socketRooms s).getD [])
          ∧ ulCount (leaveRoom st s).2.1 old
            = (if roomMembers (socketLeave st s old) old = [] then 0 else 1))
      ∧ (∀ uid, strUpper uid ≠ s →
          (leaveRoom (createRoom st s uid).1 s).2.2.error = none
          ∧ (leaveRoom (leaveRoom (createRoom st s uid).1 s).1 s).2.2.error
            = some "No room to leave")
      ∧ (∀ room, room ≠ s → roomMembers st room ≠ [] →
          (leaveRoom (joinRoom st s room).1 s).2.2.error = none
          ∧ (leaveRoom (leaveRoom (joinRoom st s room).1 s).1 s).2.2.error
            = some "No room to leave") := by
  have leaveTwice :
      ∀ (st1 : ServerState) (s code : String), WF st1 →
        lookupEntry st1.socketRooms s = some [s, code] →
        (leaveRoom st1 s).2.2.error = none
        ∧ (leaveRoom (leaveRoom st1 s).1 s).2.2.error = some "No room to leave" := by
    intro st1 s code hwf1 hl1
    have hc1 : getCurrentRoom st1 s = some code := getCurrentRoom_of_pair hl1
    constructor
    · rw [leaveRoom_eq_some st1 s code hc1]
    · have hl2 : lookupEntry (leaveRoom st1 s).1.socketRooms s = some [s] := by
        rw [(leaveRoom_state st1 s).1]
        exact leaveCurrentRoom_lookup_self hwf1 hl1
      rw [leaveRoom_eq_none _ s (getCurrentRoom_of_single hl2)]
  intro st s rs hwf hl
  refine ⟨?_, ?_, ?_, ?_, ?_⟩
  · cases hc : getCurrentRoom st s with
    | none => rw [leaveRoom_eq_none st s hc]; simp
    | some r => rw [leaveRoom_eq_some st s r hc]; simp
  · intro hc
    rw [leaveRoom_eq_none st s hc]
    exact ⟨rfl, rfl⟩
  · intro old hc
    have hos : old ≠ s := by
      rcases getCurrentRoom_cases hwf hl with ⟨_, hn⟩ | ⟨r, hr, _, hsome⟩
      · rw [hn] at hc
        cases hc
      · rw [hsome] at hc
        obtain rfl : r = old := Option.some.inj hc
        exact hr
    have hl' : lookupEntry (leaveRoom st s).1.socketRooms s = some [s] := by
      rw [(leaveRoom_state st s).1]
      exact leaveCurrentRoom_lookup_self hwf hl
    refine ⟨by rw [leaveRoom_eq_some st s old hc], getCurrentRoom_of_single hl', ?_, ?_⟩
    · rw [hl']
      simp [hos]
    · rw [(leaveRoom_state st s).2, leaveCurrentRoom_events_some hc,
        ulCount_emitUserList_self]
  · intro uid hne
    have hwf1 := WF_createRoom st s uid hwf
    have hl1 : lookupEntry (createRoom st s uid).1.socketRooms s
        = some [s, strUpper uid] := by
      rw [createRoom_eq]
      exact socketJoin_lookup_single _ (leaveCurrentRoom_lookup_self hwf hl) hne
    exact leaveTwice _ s (strUpper uid) hwf1 hl1
  · intro room hne hmem
    have hwf1 := WF_joinRoom st s room hwf
    have hl1 : lookupEntry (joinRoom st s room).1.socketRooms s = some [s, room] := by
      rw [joinRoom_eq_found st s room hmem]
      exact socketJoin_lookup_single _ (leaveCurrentRoom_lookup_self hwf hl) hne
    exact leaveTwice _ s room hwf1 hl1

/-- Witness for C5 amended: a successful leave of a concrete room. -/
theorem c5_witness :
    WF exSt1
    ∧ ((leaveRoom exSt1 "A").2.2.error = none
        ∧ getCurrentRoom (leaveRoom exSt1 "A").1 "A" = none
        ∧ "ABC" ∉ ((lookupEntry (leaveRoom exSt1 "A").1.socketRooms "A").getD [])
        ∧ ulCount (leaveRoom exSt1 "A").2.1 "ABC"
          = (if roomMembers (socketLeave exSt1 "A" "ABC") "ABC" = [] then 0 else 1)) :=
  ⟨by decide,
    (c5_leave_room_amended exSt1 "A" ["A", "ABC"] (by decide) (by decide)).2.2.1
      "ABC" (by decide)⟩

/-- Every event emitted by emitUserList is a user-list for that room. -/
theorem emitUserList_roomOf {st : ServerState} {room : String} {e : Event}
    (he : e ∈ emitUserList st room) : Event.roomOf e = room := by
  simp only [emitUserList] at he
  by_cases hm : roomMembers st room = []
  · rw [if_pos hm] at he
    cases he
  · rw [if_neg hm] at he
    simp only [List.mem_singleton] at he
    rw [he]
    rfl

/-- Counterexample to C2 as stated: the probe for A is issued while A is in
ROOMONE; by reply time A's current room is ROOMTWO, yet the resulting
user-list broadcast goes to ROOMONE (the room captured at request time) and
no broadcast at all reaches ROOMTWO. -/
theorem c2_counterexample :
    pingTick probeSt3 "A" 100 = some ⟨"A", "ROOMONE", 100⟩
    ∧ getCurrentRoom probeSt4 "A" = some "ROOMTWO"
    ∧ (probeReply probeSt4 ⟨"A", "ROOMONE", 100⟩ 150).map
        (fun q => (ulCount q.2 "ROOMTWO", ulCount q.2 "ROOMONE")) = some (0, 1) := by
  decide

/-- C2 amended: a tick for a connection in no room sends no probe and takes
no sample; a tick for a connection in a room captures that room and the
start time in the probe; on reply, when the presence record still exists,
the elapsed time is written into its `ping` field and the user-list
broadcast is addressed to the room captured at request time — even when the
connection has changed rooms in between. -/
theorem c2_prober_amended :
    ∀ (st : ServerState) (s : String) (start : Nat),
      (getCurrentRoom st s = none → pingTick st s start = none)
      ∧ (∀ r, getCurrentRoom st s = some r → pingTick st s start = some ⟨s, r, start⟩)
      ∧ (∀ (st' : ServerState) (p : Probe) (endTime : Nat) (u : UserRecord),
          lookupEntry st'.users p.sid = some u →
          ∃ st2 evs, probeReply st' p endTime = some (st2, evs)
            ∧ lookupEntry st2.users p.sid
                = some { u with ping := (endTime : Int) - (p.start : Int) }
            ∧ st2.socketRooms = st'.socketRooms
            ∧ (∀ e ∈ evs, Event.roomOf e = p.room)
            ∧ ulCount evs p.room
                = (if roomMembers st' p.room = [] then 0 else 1)) := by
  intro st s start
  refine ⟨?_, ?_, ?_⟩
  · intro h
    rw [pingTick, h]
  · intro r h
    rw [pingTick, h]
  · intro st' p endTime u hu
    have heq : probeReply st' p endTime
        = some (writePing st' p endTime u,
            emitUserList (writePing st' p endTime u) p.room) := by
      rw [probeReply, hu]
      rfl
    refine ⟨writePing st' p endTime u,
      emitUserList (writePing st' p endTime u) p.room, heq, ?_, rfl, ?_, ?_⟩
    · simp only [writePing, lookup_setEntry_self]
    · intro e he
      exact emitUserList_roomOf he
    · rw [ulCount_emitUserList_self]
      rfl

/-- Witness for C2 amended at the concrete probe run. -/
theorem c2_witness :
    (getCurrentRoom probeSt4 "A" = some "ROOMTWO" →
      pingTick probeSt4 "A" 100 = some ⟨"A", "ROOMTWO", 100⟩)
    ∧ (∃ st2 evs, probeReply probeSt4 ⟨"A", "ROOMONE", 100⟩ 150 = some (st2, evs)
        ∧ lookupEntry st2.users "A"
            = some { mkUser "A" "nA" with ping := (150 : Int) - (100 : Int) }
        ∧ st2.socketRooms = probeSt4.socketRooms
        ∧ (∀ e ∈ evs, Event.roomOf e = "ROOMONE")
        ∧ ulCount evs "ROOMONE"
            = (if roomMembers probeSt4 "ROOMONE" = [] then 0 else 1)) :=
  ⟨fun h => (c2_prober_amended probeSt4 "A" 100).2.1 "ROOMTWO" h,
    (c2_prober_amended probeSt4 "A" 100).2.2 probeSt4 ⟨"A", "ROOMONE", 100⟩ 150
      (mkUser "A" "nA") (by decide)⟩

/-- C3, evaluated on a concrete run: A is the sole member of room ABC and
is probed at t=100; A then disconnects.  The record and the interval timer
are indeed discarded and a later tick takes no sample — but the pending
probe reply finds no record and the continuation faults (`none`, the JS
TypeError from writing `users[socket.id].ping` on a deleted record) instead
of being the safe no-op the claim describes: the source has no existence
check in the reply callback. -/
theorem c3_stale_reply_fault :
    pingTick exSt1 "A" 100 = some ⟨"A", "ABC", 100⟩
    ∧ lookupEntry discSt.users "A" = none
    ∧ "A" ∉ discSt.pingIntervals
    ∧ getCurrentRoom discSt "A" = none
    ∧ pingTick discSt "A" 100 = none
    ∧ probeReply discSt ⟨"A", "ABC", 100⟩ 150 = none := by
  decide

/-! Character-level facts about the room-code uppercasing. -/

theorem isLower_eq_toNat (d : Char) :
    d.isLower = (decide (97 ≤ d.toNat) && decide (d.toNat ≤ 122)) := by
  rw [Char.isLower]
  have h1 : ((97 : UInt32) ≤ d.val) ↔ 97 ≤ d.toNat := by
    rw [UInt32.le_def, BitVec.le_def]
    rfl
  have h2 : (d.val ≤ (122 : UInt32)) ↔ d.toNat ≤ 122 := by
    rw [UInt32.le_def, BitVec.le_def]
    rfl
  simp [GE.ge, h1, h2]

theorem ofNatAux_toNat (n : Nat) (h : n.isValidChar) :
    (Char.ofNatAux n h).toNat = n := rfl

theorem toUpper_not_isLower (c : Char) : (Char.toUpper c).isLower = false := by
  rw [Char.toUpper]
  split
  · next h =>
      obtain ⟨h1, h2⟩ := h
      have hvalid : (c.toNat - 32).isValidChar := by
        left
        omega
      rw [Char.ofNat, dif_pos hvalid]
      rw [isLower_eq_toNat, ofNatAux_toNat]
      have hlt : ¬ (97 ≤ c.toNat - 32) := by omega
      simp [hlt]
  · next h =>
      rw [isLower_eq_toNat]
      by_cases h97 : 97 ≤ c.toNat
      · have h122 : ¬ (c.toNat ≤ 122) := fun hc => h ⟨h97, hc⟩
        simp [h122]
      · simp [h97]

/-- Counterexample to C8 as stated: with room ABC active (A is a member),
create-room for B with generator output "abc" returns the code ABC, which
collides with the currently-active room — the handler uppercases the
generated id and never checks it against active rooms. -/
theorem c8_counterexample :
    roomMembers exSt2 "ABC" ≠ []
    ∧ (createRoom exSt2 "B" "abc").2.2.roomID = some "ABC" := by
  decide

/-- C8 amended: create-room always returns exactly the uppercased generator
output (same length, no lowercase letters); it performs no freshness check,
so the returned code avoids the currently-active room codes only when the
uppercased generator output already does. -/
theorem c8_room_code_amended :
    ∀ (st : ServerState) (s uid : String),
      (createRoom st s uid).2.2.roomID = some (strUpper uid)
      ∧ (strUpper uid).length = uid.length
      ∧ (∀ c ∈ (strUpper uid).data, c.isLower = false) := by
  intro st s uid
  refine ⟨?_, ?_, ?_⟩
  · rw [createRoom_eq]
  · rw [strUpper, String.length, String.length]
    exact List.length_map _ _
  · intro c hc
    rw [strUpper] at hc
    rcases List.mem_map.mp hc with ⟨c0, _, hup⟩
    rw [← hup]
    exact toUpper_not_isLower c0

/-- Witness for C8 amended at a concrete generator output. -/
theorem c8_witness :
    (createRoom exSt2 "B" "xy9").2.2.roomID = some (strUpper "xy9")
    ∧ (strUpper "xy9").length = ("xy9" : String).length
    ∧ (∀ c ∈ (strUpper "xy9").data, c.isLower = false) :=
  c8_room_code_amended exSt2 "B" "xy9"

/-! Username generation facts. -/

theorem mkName_mem_allNames (a b : Nat) : mkName a b ∈ allNames := by
  have key : mkName a b = mkName (a % 14) (b % 21) := by
    have h1 : a % 14 % 14 = a % 14 := by omega
    have h2 : b % 21 % 21 = b % 21 := by omega
    show firstWords.getD (a % firstWords.length) "" ++ " "
        ++ secondWords.getD (b % secondWords.length) ""
      = firstWords.getD (a % 14 % firstWords.length) "" ++ " "
        ++ secondWords.getD (b % 21 % secondWords.length) ""
    have hf : firstWords.length = 14 := rfl
    have hs : secondWords.length = 21 := rfl
    rw [hf, hs, h1, h2]
  rw [key, allNames, List.mem_flatMap]
  refine ⟨a % 14, ?_, ?_⟩
  · rw [List.mem_range]
    omega
  · rw [List.mem_map]
    refine ⟨b % 21, ?_, rfl⟩
    rw [List.mem_range]
    omega

theorem getRandomUsername_allNames_none :
    ∀ (fuel : Nat) (rand : Nat → Nat × Nat) (i : Nat),
      getRandomUsername allNames rand fuel i = none := by
  intro fuel
  induction fuel with
  | zero => intro rand i; rfl
  | succ n ih =>
      intro rand i
      rw [getRandomUsername]
      simp only [if_pos (mkName_mem_allNames (rand i).1 (rand i).2)]
      exact ih rand (i + 1)

theorem usernames_fullSt : usernames fullSt = allNames := by
  rw [usernames, fullSt]
  simp only [List.map_map]
  exact List.map_id allNames

/-- Counterexample to C9 as stated: in a server state whose live presence
records hold all 294 generatable names (each settable through
change-username), the generation loop of a further connect never
terminates: no randomness stream and no iteration bound produce a name. -/
theorem c9_counterexample :
    ¬ ∃ (rand : Nat → Nat × Nat) (fuel : Nat),
        (registerUser fullSt "X" rand fuel).isSome = true := by
  rintro ⟨rand, fuel, h⟩
  rw [registerUser, usernames_fullSt, getRandomUsername_allNames_none fuel rand 0] at h
  cases h

/-- C9 amended: whenever the generation loop terminates it yields a name
held by no live record (termination is guaranteed only when the randomness
reaches a free prefix-suffix pair, and is impossible when all pairs are
taken); a completed registration stores that fresh name with ping 0 and
empty watching state; and change-username stores the requested name
verbatim and reports a null error with no uniqueness check. -/
theorem c9_username_amended :
    (∀ (taken : List String) (rand : Nat → Nat × Nat) (fuel i : Nat) (name : String),
        getRandomUsername taken rand fuel i = some name → name ∉ taken)
    ∧ (∀ (taken : List String) (a b : Nat), mkName a b ∉ taken →
        getRandomUsername taken (fun _ => (a, b)) 1 0 = some (mkName a b))
    ∧ (∀ (st : ServerState) (s : String) (rand : Nat → Nat × Nat) (fuel : Nat)
        (st' : ServerState), registerUser st s rand fuel = some st' →
        ∃ nm, nm ∉ usernames st
          ∧ lookupEntry st'.users s = some (mkUser s nm)
          ∧ (mkUser s nm).ping = 0
          ∧ (mkUser s nm).currentlyWatching = ""
          ∧ (mkUser s nm).currentTime = 0)
    ∧ (∀ (st : ServerState) (s name : String) (u : UserRecord),
        lookupEntry st.users s = some u →
        (changeUsername st s name).2.2.error = none
        ∧ lookupEntry (changeUsername st s name).1.users s
            = some { u with name := name }) := by
  have fresh : ∀ (taken : List String) (rand : Nat → Nat × Nat) (fuel i : Nat)
      (name : String), getRandomUsername taken rand fuel i = some name → name ∉ taken := by
    intro taken rand fuel
    induction fuel with
    | zero =>
        intro i name h
        cases h
    | succ n ih =>
        intro i name h
        rw [getRandomUsername] at h
        by_cases hm : mkName (rand i).1 (rand i).2 ∈ taken
        · rw [if_pos hm] at h
          exact ih (i + 1) name h
        · rw [if_neg hm] at h
          obtain rfl : mkName (rand i).1 (rand i).2 = name := Option.some.inj h
          exact hm
  refine ⟨fresh, ?_, ?_, ?_⟩
  · intro taken a b h
    rw [getRandomUsername]
    simp only [if_neg h]
  · intro st s rand fuel st' h
    rw [registerUser] at h
    cases hg : getRandomUsername (usernames st) rand fuel 0 with
    | none =>
        rw [hg] at h
        cases h
    | some nm =>
        rw [hg] at h
        obtain rfl : connect st s nm = st' := Option.some.inj h
        refine ⟨nm, fresh _ rand fuel 0 nm hg, ?_, rfl, rfl, rfl⟩
        rw [connect]
        exact lookup_setEntry_self _ _ _
  · intro st s name u hu
    refine ⟨rfl, ?_⟩
    rw [changeUsername]
    simp only [lookup_updateEntry_self, hu, Option.map_some']

/-- Witness for C9 amended: a free name is produced in one step at a
concrete taken-set, and a concrete rename succeeds verbatim. -/
theorem c9_witness :
    (mkName 1 1 ∉ usernames exSt0 →
      getRandomUsername (usernames exSt0) (fun _ => (1, 1)) 1 0 = some (mkName 1 1))
    ∧ ((changeUsername exSt0 "A" "Ann").2.2.error = none
        ∧ lookupEntry (changeUsername exSt0 "A" "Ann").1.users "A"
            = some { mkUser "A" "Ann" with name := "Ann" }) :=
  ⟨fun h => c9_username_amended.2.1 (usernames exSt0) 1 1 h,
    c9_username_amended.2.2.2 exSt0 "A" "Ann" (mkUser "A" "Ann") (by decide)⟩

end NetflixSync
